import Mathlib

/-!
Verification development for the font selection and metric resolution core
(crates/usvg/src/text/fontdb.rs and crates/usvg/src/text/mod.rs).

The embedding models:
  * `find_font` (query-list assembly) and `find_fallback_font` from fontdb.rs;
  * `load_font` (metric resolution) from mod.rs, including its possible panic
    (the `NonZeroU16::new(..).unwrap()` calls) via an explicit `LoadResult`;
  * the IEEE-754 binary32 (`f32`) arithmetic used by `load_font`'s fallback
    formulas, modelled exactly over `ℚ` by round-to-nearest-even at 24-bit
    precision (all values arising here are normal and far from overflow, so
    this is the exact `f32` semantics for every reachable input);
  * Rust integer semantics: `i16`/`u16` casts, two's-complement wrapping
    (release-profile semantics) and `as`-casts' truncation/saturation.

The font catalog (`fontdb::Database`) and the binary font-table parser
(`ttf_parser`) are external collaborators; they are modelled as data
(`Database` holds the face list and each face's parse result as a `FaceView`).
-/

namespace Resvg

/-! ## Rust machine-integer helpers -/

/-- Truncating division (Rust's `/` on signed integers rounds toward zero). -/
def rustDiv (a b : ℤ) : ℤ := Int.tdiv a b

/-- Two's-complement wrap of an integer into the `i16` range
`[-32768, 32767]` (release-profile overflow semantics). -/
def i16wrap (x : ℤ) : ℤ := (x + 32768) % 65536 - 32768

/-- Reinterpretation cast `u16 as i16` (the value `n` is a `u16`, i.e.
`0 ≤ n < 65536`). -/
def i16ofU16 (n : ℕ) : ℤ := if n < 32768 then (n : ℤ) else (n : ℤ) - 65536

/-- Saturation of an integer into the `i16` range, as performed by Rust's
float-to-`i16` `as` cast on an integral float value. -/
def i16sat (v : ℤ) : ℤ := max (-32768) (min 32767 v)

/-- Saturation into the `i32` range (for the `as i32` cast). -/
def i32sat (v : ℤ) : ℤ := max (-2147483648) (min 2147483647 v)

/-- Rust's `u16::try_from` on an `i32` value followed by `NonZeroU16::new`:
succeeds exactly on `1..=65535`. -/
def u16NonZeroOfI32 (v : ℤ) : Option ℕ :=
  if 0 < v ∧ v ≤ 65535 then some v.toNat else none

/-- Rust's `u16::try_from` on an `i16` value followed by `NonZeroU16::new`:
succeeds exactly on positive values (an `i16` is at most 32767 < 65536). -/
def u16NonZeroOfI16 (x : ℤ) : Option ℕ :=
  if 0 < x then some x.toNat else none

/-- Rust's `NonZeroU16::new` on a `u16` value. -/
def nonZeroU16 (n : ℕ) : Option ℕ := if n = 0 then none else some n

/-! ## Exact model of the `f32` arithmetic used by `load_font`

A finite `f32` value is a dyadic rational.  For a positive real `x` in the
normal range, the nearest `f32` is obtained by rounding `x` to the nearest
multiple of `2 ^ (e - 23)` (ties to even), where `e` is the exponent with
`2 ^ e ≤ x < 2 ^ (e + 1)`.  All float inputs and outputs in this program
have magnitude between `0.2` and `2 ^ 19`, squarely inside the normal range,
so this model is exact for them. -/

/-- Powers of two with integer exponent, as a rational. -/
def pow2 (k : ℤ) : ℚ :=
  if 0 ≤ k then ((2 ^ k.toNat : ℕ) : ℚ) else 1 / ((2 ^ (-k).toNat : ℕ) : ℚ)

/-- Fuelled base-2 floor logarithm on naturals (structural recursion on the
fuel, so that it reduces by `simp`). -/
def log2fuel : ℕ → ℕ → ℕ
  | 0, _ => 0
  | fuel + 1, n => if n ≤ 1 then 0 else log2fuel fuel (n / 2) + 1

/-- Fuelled base-2 ceiling logarithm on naturals. -/
def clog2fuel : ℕ → ℕ → ℕ
  | 0, _ => 0
  | fuel + 1, n => if n ≤ 1 then 0 else clog2fuel fuel ((n + 1) / 2) + 1

/-- Binade exponent of a positive rational: the unique `e` with
`pow2 e ≤ x < pow2 (e + 1)` (junk value for `x ≤ 0`). -/
def qlog2 (x : ℚ) : ℤ :=
  if 1 ≤ x then (log2fuel ⌊x⌋.toNat ⌊x⌋.toNat : ℤ)
  else -(clog2fuel (-⌊-x⁻¹⌋).toNat (-⌊-x⁻¹⌋).toNat : ℤ)

/-- Round `x / pow2 k` to the nearest integer, ties to even. -/
def rneInt (x : ℚ) (k : ℤ) : ℤ :=
  if x / pow2 k - (⌊x / pow2 k⌋ : ℚ) < 1 / 2 then ⌊x / pow2 k⌋
  else if 1 / 2 < x / pow2 k - (⌊x / pow2 k⌋ : ℚ) then ⌊x / pow2 k⌋ + 1
  else if ⌊x / pow2 k⌋ % 2 = 0 then ⌊x / pow2 k⌋ else ⌊x / pow2 k⌋ + 1

/-- Round `x` to the nearest multiple of `pow2 k`, ties to even. -/
def rneQ (x : ℚ) (k : ℤ) : ℚ := (rneInt x k : ℚ) * pow2 k

/-- Round a positive rational to the nearest `f32` value. -/
def roundF32Pos (x : ℚ) : ℚ := rneQ x (qlog2 x - 23)

/-- Round a rational to the nearest `f32` value (sign-symmetric; exact for
the normal range, which covers every value arising in this program). -/
def roundF32 (x : ℚ) : ℚ :=
  if x < 0 then -roundF32Pos (-x) else if x = 0 then 0 else roundF32Pos x

/-- Multiplication of two `f32` values: the correctly rounded product. -/
def f32mul (a b : ℚ) : ℚ := roundF32 (a * b)

/-- Division of two `f32` values: the correctly rounded quotient. -/
def f32div (a b : ℚ) : ℚ := roundF32 (a / b)

/-- The `f32` literal `0.45` (nearest binary32 to 45/100). -/
def c045 : ℚ := roundF32 (45 / 100)

/-- The `f32` literal `0.2`. -/
def c02 : ℚ := roundF32 (2 / 10)

/-- The `f32` literal `0.4`. -/
def c04 : ℚ := roundF32 (4 / 10)

/-- Truncation toward zero of a rational (Rust's float-to-integer `as`
cast semantics, before saturation). -/
def truncQ (q : ℚ) : ℤ := if 0 ≤ q then ⌊q⌋ else -⌊-q⌋

/-- Rust's `f32::round`: round half away from zero, as an integer (all
values this program rounds are integral or half-integral and far below
`2 ^ 24`, where `f32::round` is exact). -/
def roundHalfAway (q : ℚ) : ℤ := if 0 ≤ q then ⌊q + 1 / 2⌋ else -⌊-q + 1 / 2⌋

/-! ## The parsed face view (`ttf_parser::Face`)

`load_font` and `find_fallback_font` consume a parsed face through the
accessors `units_per_em`, `ascender`, `descender`, `x_height`,
`strikeout_metrics`, `underline_metrics`, `subscript_metrics`,
`superscript_metrics` and `glyph_index`.  `FaceView` records exactly those
observations (each metrics record is restricted to the fields the program
reads: `position`, `thickness`, `y_offset`). -/

/-- The fields of `ttf_parser::LineMetrics` read by the program. -/
structure LineMetrics where
  position : ℤ
  thickness : ℤ
deriving DecidableEq, Repr

/-- The field of `ttf_parser::ScriptMetrics` read by the program. -/
structure ScriptMetrics where
  y_offset : ℤ
deriving DecidableEq, Repr

/-- Observable results of a successful `ttf_parser::Face::parse`. -/
structure FaceView where
  units_per_em : ℕ
  ascender : ℤ
  descender : ℤ
  x_height : Option ℤ
  strikeout : Option LineMetrics
  underline : Option LineMetrics
  subscript : Option ScriptMetrics
  superscript : Option ScriptMetrics
  /-- The characters `glyph_index` maps to a glyph. -/
  glyphs : List Char
deriving DecidableEq, Repr

/-- Machine-representability of a parsed face's fields (`units_per_em` is a
`u16`; the signed metrics are `i16`). -/
def FaceView.WF (fv : FaceView) : Prop :=
  fv.units_per_em ≤ 65535 ∧
  -32768 ≤ fv.ascender ∧ fv.ascender ≤ 32767 ∧
  -32768 ≤ fv.descender ∧ fv.descender ≤ 32767

instance (fv : FaceView) : Decidable fv.WF := by
  unfold FaceView.WF; infer_instance

/-- Modelled from the spec: the binary font-table parser is an external
collaborator (spec section 6) whose code is not part of this repository.  On a
successful parse it guarantees a sane `units_per_em`: the source comments rely
on `units_per_em >= 16` ("`ttf_parser` guarantees that units_per_em is >= 16"),
and the parser validates the `head` table's units-per-em into `16..=16384`,
rejecting the face otherwise. -/
def unitsPerEmContract (fv : FaceView) : Prop :=
  16 ≤ fv.units_per_em ∧ fv.units_per_em ≤ 16384

/-! ## `load_font` (metric resolution), from mod.rs -/

/-- Identifier of a face in the catalog (`fontdb::ID` is an abstract handle). -/
abbrev ID := ℕ

/-- The metrics record assembled by `load_font`
(`crate::layout::ResolvedFont`; the strictly-positive `NonZeroU16` fields
are modelled as `ℕ`, with positivity proved in the theorems below). -/
structure ResolvedFont where
  id : ID
  units_per_em : ℕ
  ascent : ℤ
  descent : ℤ
  x_height : ℕ
  underline_position : ℤ
  underline_thickness : ℕ
  line_through_position : ℤ
  subscript_offset : ℤ
  superscript_offset : ℤ
deriving DecidableEq, Repr

/-- Outcome of running `load_font`'s body: a value, Rust's `None`, or a
panic of one of the `unwrap` calls. -/
inductive LoadResult (α : Type) where
  | ok : α → LoadResult α
  | noResult : LoadResult α
  | panic : LoadResult α
deriving DecidableEq, Repr

/-- The x-height as read from the face's table:
`font.x_height().and_then(|x| u16::try_from(x).ok()).and_then(NonZeroU16::new)`. -/
def xHeightFromTable (fv : FaceView) : Option ℕ :=
  fv.x_height.bind u16NonZeroOfI16

/-- The fallback x-height value before the cast chain:
`(f32::from(ascent - descent) * 0.45) as i32`.  The subtraction
`ascent - descent` is `i16` arithmetic (wrapping in release builds); the
`i16`-to-`f32` conversion is exact; the product is one rounded `f32`
multiplication; the `as i32` cast truncates toward zero (saturation included
for faithfulness, though the value always fits). -/
def xHeightFallbackVal (fv : FaceView) : ℤ :=
  i32sat (truncQ (f32mul ((i16wrap (fv.ascender - fv.descender) : ℤ) : ℚ) c045))

/-- The fallback x-height:
`u16::try_from((f32::from(ascent - descent) * 0.45) as i32).ok().and_then(NonZeroU16::new)`. -/
def xHeightFallback (fv : FaceView) : Option ℕ :=
  u16NonZeroOfI32 (xHeightFallbackVal fv)

/-- The resolved x-height: the table value if present and usable, otherwise
the 45% fallback; `none` aborts the whole resolution. -/
def resolveXHeight (fv : FaceView) : Option ℕ :=
  match xHeightFromTable fv with
  | some height => some height
  | none => xHeightFallback fv

/-- The underline `(position, thickness)` pair, including the possible
panic: with a table, the table's position is kept and the thickness falls
back to `units_per_em / 12` when not a positive `u16`; without a table,
position is `-(units_per_em as i16) / 9` and thickness `units_per_em / 12`.
Both fallback thickness computations end in `.unwrap()`, which panics when
`units_per_em / 12 = 0`. -/
def resolveUnderline (fv : FaceView) : LoadResult (ℤ × ℕ) :=
  match fv.underline with
  | some metrics =>
    match u16NonZeroOfI16 metrics.thickness with
    | some thickness => .ok (metrics.position, thickness)
    | none =>
      match nonZeroU16 (fv.units_per_em / 12) with
      | some thickness => .ok (metrics.position, thickness)
      | none => .panic
  | none =>
    match nonZeroU16 (fv.units_per_em / 12) with
    | some thickness =>
      .ok (rustDiv (i16wrap (-(i16ofU16 fv.units_per_em))) 9, thickness)
    | none => .panic

/-- The subscript fallback offset `(units_per_em as f32 / 0.2).round() as i16`. -/
def subscriptFallback (upem : ℕ) : ℤ := i16sat (roundHalfAway (f32div (upem : ℚ) c02))

/-- The superscript fallback offset `(units_per_em as f32 / 0.4).round() as i16`. -/
def superscriptFallback (upem : ℕ) : ℤ := i16sat (roundHalfAway (f32div (upem : ℚ) c04))

/-- Assembly of the `ResolvedFont` record once the fallible steps are done. -/
def mkResolved (id : ID) (fv : FaceView) (xh : ℕ) (upos : ℤ) (uthick : ℕ) :
    ResolvedFont where
  id := id
  units_per_em := fv.units_per_em
  ascent := fv.ascender
  descent := fv.descender
  x_height := xh
  underline_position := upos
  underline_thickness := uthick
  line_through_position :=
    match fv.strikeout with
    | some metrics => metrics.position
    | none => rustDiv (i16ofU16 xh) 2
  subscript_offset :=
    match fv.subscript with
    | some metrics => metrics.y_offset
    | none => subscriptFallback fv.units_per_em
  superscript_offset :=
    match fv.superscript with
    | some metrics => metrics.y_offset
    | none => superscriptFallback fv.units_per_em

/-- The body of `load_font` on a successfully parsed face, in source order:
`units_per_em` check, x-height resolution (may abort), strikeout fallback,
underline resolution (may panic), subscript/superscript fallbacks. -/
def resolveMetrics (id : ID) (fv : FaceView) : LoadResult ResolvedFont :=
  if fv.units_per_em = 0 then .noResult
  else
    match resolveXHeight fv with
    | none => .noResult
    | some xh =>
      match resolveUnderline fv with
      | .panic => .panic
      | .noResult => .noResult
      | .ok (upos, uthick) => .ok (mkResolved id fv xh upos uthick)

/-! ## The catalog (`fontdb::Database`) and the fontdb.rs impl -/

/-- Language tags on family names; the program only ever compares against
U.S. English, so other tags are collapsed into `other`. -/
inductive Language where
  | english_UnitedStates : Language
  | other : String → Language
deriving DecidableEq, Repr

/-- The fields of `fontdb::FaceInfo` read by the program. -/
structure FaceInfo where
  id : ID
  style : ℕ
  weight : ℕ
  stretch : ℕ
  families : List (String × Language)
deriving DecidableEq, Repr

/-- The generic-or-named family tokens of `fontdb::Family`. -/
inductive Family where
  | serif | sans_serif | cursive | fantasy | monospace
  | name : String → Family
deriving DecidableEq, Repr

/-- The family preferences of `svgtypes::FontFamily`. -/
inductive FontFamily where
  | serif | sans_serif | cursive | fantasy | monospace
  | named : String → FontFamily
deriving DecidableEq, Repr

/-- The style request (`crate::Font`): ordered family preferences plus
weight/stretch/style classes (the latter two modelled as their 1:1
translation targets, which the claims do not inspect further). -/
structure Font where
  families : List FontFamily
  weight : ℕ
  stretch : ℕ
  style : ℕ
deriving DecidableEq, Repr

/-- The font catalog with the capabilities the program consumes: the stable
enumeration `faces()`, per-face raw-data access plus table parsing
(collapsed into the parse result: `none` = no data, `some none` = parse
failure), and the catalog's own proximity query. -/
structure Database where
  faces : List FaceInfo
  faceParse : ID → Option (Option FaceView)
  queryFn : List Family → ℕ → ℕ → ℕ → Option ID

/-- Descriptor lookup by identifier (`fontdb::Database::face`). -/
def Database.face (db : Database) (id : ID) : Option FaceInfo :=
  db.faces.find? (fun f => f.id = id)

/-- Definition of `load_font` itself: scoped access to the raw face data, parse, then the
metric-resolution body; an absent face or a parse failure yields `None`. -/
def load_font (db : Database) (id : ID) : LoadResult ResolvedFont :=
  match db.faceParse id with
  | none => .noResult
  | some none => .noResult
  | some (some fv) => resolveMetrics id fv

/-- Translation of one requested family to the catalog's token (the
generic classes map 1:1; named families pass through). -/
def familyToken : FontFamily → Family
  | .serif => .serif
  | .sans_serif => .sans_serif
  | .cursive => .cursive
  | .fantasy => .fantasy
  | .monospace => .monospace
  | .named s => .name s

/-- The candidate family list assembled by `find_font`: the push loop over
the requested families followed by the unconditional serif fallback push. -/
def name_list (font : Font) : List Family :=
  (font.families.foldl (fun acc family => acc ++ [familyToken family]) []) ++
    [Family.serif]

/-- Definition of `find_font`: assemble the query and submit it to the catalog (the
catalog performs the actual proximity search). -/
def find_font (db : Database) (font : Font) : Option ID :=
  db.queryFn (name_list font) font.weight font.stretch font.style

/-- The style-compatibility rejection test of `find_fallback_font`: the
candidate is skipped iff style, weight, and stretch all three differ from
the base face's. -/
def styleMismatch (base_face face : FaceInfo) : Bool :=
  base_face.style ≠ face.style ∧ base_face.weight ≠ face.weight ∧
    base_face.stretch ≠ face.stretch

/-- The glyph-coverage test of `find_fallback_font`:
`with_face_data(...).flatten().unwrap_or(false)` — true iff the raw data
exists, parses, and maps the character to a glyph. -/
def has_char (db : Database) (id : ID) (c : Char) : Bool :=
  match db.faceParse id with
  | none => false
  | some none => false
  | some (some fv) => fv.glyphs.contains c

/-- The scan loop of `find_fallback_font` over the remaining enumeration:
used-set check, base-descriptor fetch (whose `?` aborts the whole call),
style-compatibility check, glyph-coverage check, then acceptance.  (The
logging side effect is modelled separately by `fallback_note`.) -/
def fallback_scan (db : Database) (c : Char) (base_font_id : ID)
    (used_fonts : List ID) : List FaceInfo → Option ID
  | [] => none
  | face :: rest =>
    if used_fonts.contains face.id then
      fallback_scan db c base_font_id used_fonts rest
    else
      match db.face base_font_id with
      | none => none
      | some base_face =>
        if styleMismatch base_face face then
          fallback_scan db c base_font_id used_fonts rest
        else if has_char db face.id c then some face.id
        else fallback_scan db c base_font_id used_fonts rest

/-- Definition of `find_fallback_font`: the linear scan over the catalog's enumeration. -/
def find_fallback_font (db : Database) (c : Char) (base_font_id : ID)
    (used_fonts : List ID) : Option ID :=
  fallback_scan db c base_font_id used_fonts db.faces

/-- The names used by the accepted-fallback log line.  Note the source
computes the new face's fallback name from `base_face.families[0]`, not
`face.families[0]`; indexing an empty family list would panic (`none`
here). -/
def fallback_note (base_face face : FaceInfo) : Option (String × String) :=
  match base_face.families.head? with
  | none => none
  | some baseFirst =>
    let base_family :=
      (base_face.families.find?
        (fun f => f.2 = Language.english_UnitedStates)).getD baseFirst
    let new_family :=
      (face.families.find?
        (fun f => f.2 = Language.english_UnitedStates)).getD baseFirst
    some (base_family.1, new_family.1)

/-- Modelled from the spec: a face's preferred display name is "the family
name tagged for U.S. English, or the first listed name if no U.S.-English
tag exists" — of that same face. -/
def specDisplayName (face : FaceInfo) : Option String :=
  match face.families.find? (fun f => f.2 = Language.english_UnitedStates) with
  | some fam => some fam.1
  | none => (face.families.head?).map (fun fam => fam.1)

/-! ## Concrete instances used by witnesses and counterexamples -/

/-- A face with every optional table present (units-per-em 1000). -/
def fvAll : FaceView :=
  { units_per_em := 1000, ascender := 800, descender := -200,
    x_height := some 450, strikeout := some ⟨225, 50⟩,
    underline := some ⟨-100, 50⟩, subscript := some ⟨-200⟩,
    superscript := some ⟨300⟩, glyphs := ['é'] }

/-- A face whose x-height table is absent and whose ascent minus descent is
999 (exercises the 45% fallback). -/
def fvC4 : FaceView :=
  { units_per_em := 1000, ascender := 999, descender := 0, x_height := none,
    strikeout := some ⟨250, 50⟩, underline := some ⟨-100, 50⟩,
    subscript := some ⟨-200⟩, superscript := some ⟨300⟩, glyphs := [] }

/-- A face with no underline table (exercises both underline fallbacks). -/
def fvC3w : FaceView :=
  { units_per_em := 1000, ascender := 800, descender := -200,
    x_height := some 450, strikeout := some ⟨225, 50⟩, underline := none,
    subscript := some ⟨-200⟩, superscript := some ⟨300⟩, glyphs := [] }

/-- A face with units-per-em 16384 (valid per the parser contract) and no
subscript table (exercises the saturating subscript fallback). -/
def fvC7 : FaceView :=
  { units_per_em := 16384, ascender := 1638, descender := -410,
    x_height := some 800, strikeout := some ⟨400, 80⟩,
    underline := some ⟨-100, 50⟩, subscript := none, superscript := some ⟨300⟩,
    glyphs := [] }

/-- A face with neither subscript nor superscript table. -/
def fvC7w : FaceView :=
  { units_per_em := 1000, ascender := 800, descender := -200,
    x_height := some 450, strikeout := some ⟨225, 50⟩,
    underline := some ⟨-100, 50⟩, subscript := none, superscript := none,
    glyphs := [] }

/-- A face with units-per-em 11: `units_per_em / 12 = 0`, so the underline
fallback's `unwrap` panics. -/
def fvC9 : FaceView :=
  { units_per_em := 11, ascender := 10, descender := -2, x_height := some 5,
    strikeout := none, underline := none, subscript := none,
    superscript := none, glyphs := [] }

/-- Catalog with the single all-tables face under identifier 0. -/
def dbAll : Database :=
  { faces := [{ id := 0, style := 0, weight := 400, stretch := 5,
                families := [("Alpha", Language.english_UnitedStates)] }]
    faceParse := fun id => if id = 0 then some (some fvAll) else none
    queryFn := fun _ _ _ _ => none }

/-- The fallback-scenario base face: identifier 0, normal style. -/
def faceA : FaceInfo :=
  { id := 0, style := 0, weight := 400, stretch := 5,
    families := [("Alpha", Language.english_UnitedStates)] }

/-- The fallback-scenario candidate: identifier 1, matching the base face on
weight only (style and stretch differ). -/
def faceB : FaceInfo :=
  { id := 1, style := 1, weight := 400, stretch := 3,
    families := [("Beta", Language.english_UnitedStates)] }

/-- Catalog for the fallback scenario: both faces cover `'é'`. -/
def dbScen : Database :=
  { faces := [faceA, faceB]
    faceParse := fun id =>
      if id = 0 then some (some fvAll)
      else if id = 1 then some (some fvAll) else none
    queryFn := fun _ _ _ _ => none }

/-- Base face for the display-name bug: no U.S.-English family tag. -/
def baseC5 : FaceInfo :=
  { id := 0, style := 0, weight := 400, stretch := 5,
    families := [("Alpha", Language.other "de")] }

/-- Candidate face for the display-name bug: its own first family name is
"Beta", with no U.S.-English tag. -/
def candC5 : FaceInfo :=
  { id := 1, style := 0, weight := 400, stretch := 5,
    families := [("Beta", Language.other "de")] }

/-- The first face enumerated by `dbC10` (does not cover `'x'`). -/
def faceC10a : FaceInfo :=
  { id := 2, style := 0, weight := 400, stretch := 5,
    families := [("Delta", Language.english_UnitedStates)] }

/-- A later face enumerated by `dbC10` that does cover `'x'`. -/
def faceC10 : FaceInfo :=
  { id := 1, style := 0, weight := 400, stretch := 5,
    families := [("Gamma", Language.english_UnitedStates)] }

/-- Catalog whose base face identifier 99 has no descriptor while the
enumeration still contains a usable later candidate. -/
def dbC10 : Database :=
  { faces := [faceC10a, faceC10]
    faceParse := fun id =>
      if id = 1 then some (some { fvAll with glyphs := ['x'] })
      else if id = 2 then some (some { fvAll with glyphs := [] })
      else none
    queryFn := fun _ _ _ _ => none }

/-! ## Facts about `pow2`, the fuelled logarithms and `qlog2` -/

theorem pow2_eq_zpow (k : ℤ) : pow2 k = (2 : ℚ) ^ k := by
  unfold pow2
  rcases le_or_lt 0 k with h | h
  · rw [if_pos h]
    push_cast
    rw [← zpow_natCast (2 : ℚ) k.toNat, Int.toNat_of_nonneg h]
  · rw [if_neg (not_le.mpr h)]
    push_cast
    rw [← zpow_natCast (2 : ℚ) (-k).toNat, Int.toNat_of_nonneg (by omega),
      one_div, ← zpow_neg, neg_neg]

theorem pow2_pos (k : ℤ) : 0 < pow2 k := by
  rw [pow2_eq_zpow]; positivity

theorem pow2_add (a b : ℤ) : pow2 (a + b) = pow2 a * pow2 b := by
  simp [pow2_eq_zpow, zpow_add₀ (by norm_num : (2 : ℚ) ≠ 0)]

theorem pow2_zero : pow2 0 = 1 := by norm_num [pow2]

theorem pow2_one : pow2 1 = 2 := by norm_num [pow2]

theorem pow2_le_pow2 {a b : ℤ} (h : a ≤ b) : pow2 a ≤ pow2 b := by
  rw [pow2_eq_zpow, pow2_eq_zpow]
  exact zpow_le_zpow_right₀ one_lt_two.le h

theorem pow2_lt_pow2 {a b : ℤ} (h : a < b) : pow2 a < pow2 b := by
  rw [pow2_eq_zpow, pow2_eq_zpow]
  exact zpow_lt_zpow_right₀ one_lt_two h

theorem pow2_lt_pow2_iff {a b : ℤ} : pow2 a < pow2 b ↔ a < b := by
  rw [pow2_eq_zpow, pow2_eq_zpow]
  exact zpow_lt_zpow_iff_right₀ one_lt_two

theorem pow2_natCast (n : ℕ) : pow2 (n : ℤ) = ((2 ^ n : ℕ) : ℚ) := by
  unfold pow2
  rw [if_pos (by positivity), Int.toNat_natCast]

theorem pow2_half (k : ℤ) : pow2 (k - 1) = pow2 k / 2 := by
  have h := pow2_add (k - 1) 1
  rw [sub_add_cancel, pow2_one] at h
  rw [h]; ring

theorem log2fuel_bounds :
    ∀ fuel n, 1 ≤ n → n ≤ fuel →
      2 ^ log2fuel fuel n ≤ n ∧ n < 2 ^ (log2fuel fuel n + 1) := by
  intro fuel
  induction fuel with
  | zero => intro n h1 h2; omega
  | succ f ih =>
    intro n h1 h2
    rw [log2fuel]
    by_cases hn : n ≤ 1
    · rw [if_pos hn]; constructor
      · simpa using h1
      · norm_num; omega
    · rw [if_neg hn]
      obtain ⟨hl, hr⟩ := ih (n / 2) (by omega) (by omega)
      have e1 : 2 ^ (log2fuel f (n / 2) + 1) = 2 * 2 ^ log2fuel f (n / 2) := by
        ring
      have e2 : 2 ^ (log2fuel f (n / 2) + 1 + 1) =
          2 * 2 ^ (log2fuel f (n / 2) + 1) := by ring
      constructor
      · rw [e1]; omega
      · rw [e2]; omega

theorem clog2fuel_bounds :
    ∀ fuel n, 2 ≤ n → n ≤ fuel →
      1 ≤ clog2fuel fuel n ∧ 2 ^ (clog2fuel fuel n - 1) < n ∧
        n ≤ 2 ^ clog2fuel fuel n := by
  intro fuel
  induction fuel with
  | zero => intro n h1 h2; omega
  | succ f ih =>
    intro n h1 h2
    rw [clog2fuel, if_neg (by omega : ¬n ≤ 1)]
    by_cases hsmall : n = 2
    · subst hsmall
      have : clog2fuel f 1 = 0 := by
        cases f with
        | zero => rfl
        | succ f => rw [clog2fuel, if_pos (by omega)]
      rw [this]; norm_num
    · obtain ⟨h1k, hlt, hle⟩ := ih ((n + 1) / 2) (by omega) (by omega)
      refine ⟨by omega, ?_, ?_⟩
      · have e1 : 2 ^ (clog2fuel f ((n + 1) / 2) + 1 - 1) =
            2 * 2 ^ (clog2fuel f ((n + 1) / 2) - 1) := by
          rw [Nat.add_sub_cancel, ← pow_succ']
          congr 1
          omega
        rw [e1]; omega
      · have e2 : 2 ^ (clog2fuel f ((n + 1) / 2) + 1) =
            2 * 2 ^ clog2fuel f ((n + 1) / 2) := by
          rw [pow_succ]; ring
        rw [e2]; omega

theorem qlog2_bounds {x : ℚ} (hx : 0 < x) :
    pow2 (qlog2 x) ≤ x ∧ x < pow2 (qlog2 x + 1) := by
  unfold qlog2
  by_cases h1 : 1 ≤ x
  · rw [if_pos h1]
    have hfl : (1 : ℤ) ≤ ⌊x⌋ := Int.le_floor.mpr (by exact_mod_cast h1)
    have htn : 1 ≤ ⌊x⌋.toNat := by omega
    obtain ⟨hl, hr⟩ := log2fuel_bounds ⌊x⌋.toNat ⌊x⌋.toNat htn le_rfl
    have hcast : ((⌊x⌋.toNat : ℕ) : ℚ) = (⌊x⌋ : ℚ) := by
      exact_mod_cast Int.toNat_of_nonneg (by omega : (0 : ℤ) ≤ ⌊x⌋)
    constructor
    · rw [pow2_natCast]
      calc ((2 ^ log2fuel ⌊x⌋.toNat ⌊x⌋.toNat : ℕ) : ℚ) ≤ ((⌊x⌋.toNat : ℕ) : ℚ) := by
            exact_mod_cast hl
        _ = (⌊x⌋ : ℚ) := hcast
        _ ≤ x := Int.floor_le x
    · have : ((log2fuel ⌊x⌋.toNat ⌊x⌋.toNat : ℤ) + 1) =
          ((log2fuel ⌊x⌋.toNat ⌊x⌋.toNat + 1 : ℕ) : ℤ) := by push_cast; ring
      rw [this, pow2_natCast]
      calc x < (⌊x⌋ : ℚ) + 1 := Int.lt_floor_add_one x
        _ = ((⌊x⌋.toNat + 1 : ℕ) : ℚ) := by push_cast; rw [hcast]
        _ ≤ ((2 ^ (log2fuel ⌊x⌋.toNat ⌊x⌋.toNat + 1) : ℕ) : ℚ) := by
            exact_mod_cast hr
  · rw [if_neg h1]
    push_neg at h1
    have hinv1 : 1 < x⁻¹ := (one_lt_inv₀ hx).mpr h1
    have hinv0 : 0 < x⁻¹ := by positivity
    rw [Int.floor_neg, neg_neg]
    have hceil2 : (2 : ℤ) ≤ ⌈x⁻¹⌉ := by
      have h := Int.le_ceil x⁻¹
      have : (1 : ℚ) < (⌈x⁻¹⌉ : ℚ) := lt_of_lt_of_le hinv1 h
      have : (1 : ℤ) < ⌈x⁻¹⌉ := by exact_mod_cast this
      omega
    have htn2 : 2 ≤ ⌈x⁻¹⌉.toNat := by omega
    obtain ⟨hk1, hklt, hkle⟩ :=
      clog2fuel_bounds ⌈x⁻¹⌉.toNat ⌈x⁻¹⌉.toNat htn2 le_rfl
    have hcastc : ((⌈x⁻¹⌉.toNat : ℕ) : ℚ) = (⌈x⁻¹⌉ : ℚ) := by
      exact_mod_cast Int.toNat_of_nonneg (by omega : (0 : ℤ) ≤ ⌈x⁻¹⌉)
    have hinv_le : x⁻¹ ≤ ((2 ^ clog2fuel ⌈x⁻¹⌉.toNat ⌈x⁻¹⌉.toNat : ℕ) : ℚ) := by
      calc x⁻¹ ≤ (⌈x⁻¹⌉ : ℚ) := Int.le_ceil x⁻¹
        _ = ((⌈x⁻¹⌉.toNat : ℕ) : ℚ) := hcastc.symm
        _ ≤ _ := by exact_mod_cast hkle
    have hlt_inv :
        ((2 ^ (clog2fuel ⌈x⁻¹⌉.toNat ⌈x⁻¹⌉.toNat - 1) : ℕ) : ℚ) < x⁻¹ := by
      have hstep : ((2 ^ (clog2fuel ⌈x⁻¹⌉.toNat ⌈x⁻¹⌉.toNat - 1) : ℕ) : ℚ) ≤
          (⌈x⁻¹⌉ : ℚ) - 1 := by
        rw [← hcastc]
        have : (2 ^ (clog2fuel ⌈x⁻¹⌉.toNat ⌈x⁻¹⌉.toNat - 1) : ℕ) + 1 ≤
            ⌈x⁻¹⌉.toNat := by omega
        have := (Nat.cast_le (α := ℚ)).mpr this
        push_cast at this ⊢
        linarith
      have hc1 : (⌈x⁻¹⌉ : ℚ) - 1 < x⁻¹ := by
        have := Int.ceil_lt_add_one x⁻¹
        linarith
      linarith
    have hQpos : (0 : ℚ) <
        ((2 ^ (clog2fuel ⌈x⁻¹⌉.toNat ⌈x⁻¹⌉.toNat - 1) : ℕ) : ℚ) := by positivity
    have hPpos : (0 : ℚ) <
        ((2 ^ clog2fuel ⌈x⁻¹⌉.toNat ⌈x⁻¹⌉.toNat : ℕ) : ℚ) := by positivity
    constructor
    · have hneg : pow2 (-(clog2fuel ⌈x⁻¹⌉.toNat ⌈x⁻¹⌉.toNat : ℤ)) =
          ((2 ^ clog2fuel ⌈x⁻¹⌉.toNat ⌈x⁻¹⌉.toNat : ℕ) : ℚ)⁻¹ := by
        rw [pow2_eq_zpow, zpow_neg, ← pow2_eq_zpow, pow2_natCast]
      rw [hneg, inv_eq_one_div, div_le_iff₀ hPpos]
      have h := mul_le_mul_of_nonneg_left hinv_le hx.le
      rw [mul_inv_cancel₀ hx.ne'] at h
      linarith
    · have hexp : -(clog2fuel ⌈x⁻¹⌉.toNat ⌈x⁻¹⌉.toNat : ℤ) + 1 =
          -((clog2fuel ⌈x⁻¹⌉.toNat ⌈x⁻¹⌉.toNat - 1 : ℕ) : ℤ) := by
        push_cast [Nat.cast_sub hk1]
        ring
      have hneg : pow2 (-(clog2fuel ⌈x⁻¹⌉.toNat ⌈x⁻¹⌉.toNat : ℤ) + 1) =
          ((2 ^ (clog2fuel ⌈x⁻¹⌉.toNat ⌈x⁻¹⌉.toNat - 1) : ℕ) : ℚ)⁻¹ := by
        rw [hexp, pow2_eq_zpow, zpow_neg, ← pow2_eq_zpow, pow2_natCast]
      rw [hneg, inv_eq_one_div, lt_div_iff₀ hQpos]
      have h := mul_lt_mul_of_pos_left hlt_inv hx
      rw [mul_inv_cancel₀ hx.ne'] at h
      linarith

theorem qlog2_unique {x : ℚ} {e : ℤ} (hx : 0 < x) (h1 : pow2 e ≤ x)
    (h2 : x < pow2 (e + 1)) : qlog2 x = e := by
  obtain ⟨g1, g2⟩ := qlog2_bounds hx
  by_contra hne
  rcases lt_or_gt_of_ne hne with h | h
  · have := pow2_le_pow2 (by omega : qlog2 x + 1 ≤ e)
    linarith
  · have := pow2_le_pow2 (by omega : e + 1 ≤ qlog2 x)
    linarith

/-! ## The rounding fixpoint lemma -/

theorem rneQ_eq_of_close {x : ℚ} {k : ℤ} {j : ℤ}
    (h : |x - (j : ℚ) * pow2 k| < pow2 k / 2) : rneQ x k = (j : ℚ) * pow2 k := by
  have hp := pow2_pos k
  have hqj : |x / pow2 k - (j : ℚ)| < 1 / 2 := by
    have : x / pow2 k - (j : ℚ) = (x - (j : ℚ) * pow2 k) / pow2 k := by
      field_simp
      ring
    rw [this, abs_div, abs_of_pos hp, div_lt_iff₀ hp]
    calc |x - (j : ℚ) * pow2 k| < pow2 k / 2 := h
      _ = 1 / 2 * pow2 k := by ring
  obtain ⟨hd1, hd2⟩ := abs_sub_lt_iff.mp hqj
  unfold rneQ rneInt
  rcases le_or_lt (j : ℚ) (x / pow2 k) with hle | hlt
  · have hfl : ⌊x / pow2 k⌋ = j := by
      rw [Int.floor_eq_iff]
      exact ⟨hle, by linarith⟩
    rw [hfl, if_pos (by linarith)]
  · have hfl : ⌊x / pow2 k⌋ = j - 1 := by
      rw [Int.floor_eq_iff]
      constructor
      · push_cast; linarith
      · push_cast; linarith
    rw [hfl]
    rw [if_neg (by push_cast; linarith), if_pos (by push_cast; linarith)]
    push_cast
    ring

theorem roundF32_eq_pos {x : ℚ} (hx : 0 < x) : roundF32 x = roundF32Pos x := by
  unfold roundF32
  rw [if_neg (not_lt.mpr hx.le), if_neg hx.ne']

/-- Evaluation principle for `roundF32` at a positive argument: any value `m`
that is a representable multiple of the ulp of `x`'s binade `e` and lies
strictly within half an ulp of `x` is the rounding result. -/
theorem roundF32_eval (x m : ℚ) (e j : ℤ) (hx : 0 < x)
    (hlo : pow2 e ≤ x) (hhi : x < pow2 (e + 1))
    (hm : m = (j : ℚ) * pow2 (e - 23))
    (hc1 : x - m < pow2 (e - 24)) (hc2 : m - x < pow2 (e - 24)) :
    roundF32 x = m := by
  have he := qlog2_unique hx hlo hhi
  rw [roundF32_eq_pos hx]
  unfold roundF32Pos
  rw [he, hm]
  apply rneQ_eq_of_close
  rw [← hm]
  have hhalf : pow2 (e - 23) / 2 = pow2 (e - 24) := by
    rw [show e - 24 = e - 23 - 1 by ring, pow2_half]
  rw [hhalf]
  exact abs_sub_lt_iff.mpr ⟨hc1, hc2⟩

/-! ## Closed forms of the `f32` constants -/

theorem c045_eq : c045 = 15099494 / 33554432 := by
  unfold c045
  apply roundF32_eval (45 / 100) _ (-2) 15099494 (by norm_num) <;>
    · norm_num [pow2]
      try simp
      try norm_num

theorem c02_eq : c02 = 13421773 / 67108864 := by
  unfold c02
  apply roundF32_eval (2 / 10) _ (-3) 13421773 (by norm_num) <;>
    · norm_num [pow2]
      try simp
      try norm_num

theorem c04_eq : c04 = 13421773 / 33554432 := by
  unfold c04
  apply roundF32_eval (4 / 10) _ (-2) 13421773 (by norm_num) <;>
    · norm_num [pow2]
      try simp
      try norm_num

/-! ## Exact characterization of the division-based fallback offsets

For every `u16` value `u >= 1`, the `f32` computation `u as f32 / 0.2`
produces exactly the real number `5 * u`, and `u as f32 / 0.4` produces
exactly `2.5 * u`: the exact quotients fall within half an ulp of those
representable values. -/

theorem f32div_c02_eq (u : ℕ) (h1 : 1 ≤ u) (h2 : u ≤ 65535) :
    f32div (u : ℚ) c02 = ((5 * u : ℕ) : ℚ) := by
  unfold f32div
  rw [c02_eq]
  have hu0 : (0 : ℚ) < (u : ℚ) := by exact_mod_cast h1
  have huQ : (u : ℚ) ≤ 65535 := by exact_mod_cast h2
  have hxpos : (0 : ℚ) < (u : ℚ) / (13421773 / 67108864) := by positivity
  set x : ℚ := (u : ℚ) / (13421773 / 67108864) with hxdef
  obtain ⟨hlo, hhi⟩ := qlog2_bounds hxpos
  set e : ℤ := qlog2 x with he
  have hxub : x < pow2 19 := by
    rw [hxdef, div_lt_iff₀ (by norm_num)]
    rw [show pow2 19 = 524288 by simp [pow2]; try norm_num]
    nlinarith
  have he18 : e ≤ 18 := by
    have h := lt_of_le_of_lt hlo hxub
    have := pow2_lt_pow2_iff.mp h
    omega
  have hgapeq : ((5 * u : ℕ) : ℚ) - x = (u : ℚ) / 13421773 := by
    rw [hxdef]
    push_cast
    field_simp
    ring
  have hgap0 : (0 : ℚ) ≤ (u : ℚ) / 13421773 := by positivity
  apply roundF32_eval x _ e ((5 * u : ℤ) * 2 ^ (23 - e).toNat) hxpos hlo hhi
  · have h23 : (0 : ℤ) ≤ 23 - e := by omega
    have hp : ((2 : ℚ) ^ (23 - e).toNat) = pow2 (23 - e) := by
      rw [pow2_eq_zpow, ← zpow_natCast, Int.toNat_of_nonneg h23]
    push_cast
    rw [mul_assoc, hp, ← pow2_add]
    rw [show 23 - e + (e - 23) = 0 by ring, pow2_zero, mul_one]
  · have := pow2_pos (e - 24)
    linarith
  · rw [hgapeq]
    have hx2 : (u : ℚ) = x * (13421773 / 67108864) := by
      rw [hxdef]; field_simp
    have hub : (u : ℚ) < pow2 (e + 1) * (13421773 / 67108864) := by
      rw [hx2]
      have := mul_lt_mul_of_pos_right hhi
        (by norm_num : (0 : ℚ) < 13421773 / 67108864)
      linarith
    rw [div_lt_iff₀ (by norm_num : (0 : ℚ) < 13421773)]
    have hstep : pow2 (e + 1) * (13421773 / 67108864) ≤ pow2 (e - 24) * 13421773 := by
      have hsplit : pow2 (e + 1) = pow2 (e - 25) * 67108864 := by
        rw [show e + 1 = e - 25 + 26 by ring, pow2_add]
        simp [pow2]
      rw [hsplit]
      have hmono : pow2 (e - 25) ≤ pow2 (e - 24) := pow2_le_pow2 (by omega)
      nlinarith [pow2_pos (e - 25), pow2_pos (e - 24)]
    linarith

theorem f32div_c04_eq (u : ℕ) (h1 : 1 ≤ u) (h2 : u ≤ 65535) :
    f32div (u : ℚ) c04 = ((5 * u : ℕ) : ℚ) / 2 := by
  unfold f32div
  rw [c04_eq]
  have hu0 : (0 : ℚ) < (u : ℚ) := by exact_mod_cast h1
  have huQ : (u : ℚ) ≤ 65535 := by exact_mod_cast h2
  have hxpos : (0 : ℚ) < (u : ℚ) / (13421773 / 33554432) := by positivity
  set x : ℚ := (u : ℚ) / (13421773 / 33554432) with hxdef
  obtain ⟨hlo, hhi⟩ := qlog2_bounds hxpos
  set e : ℤ := qlog2 x with he
  have hxub : x < pow2 18 := by
    rw [hxdef, div_lt_iff₀ (by norm_num)]
    rw [show pow2 18 = 262144 by simp [pow2]; try norm_num]
    nlinarith
  have he17 : e ≤ 17 := by
    have h := lt_of_le_of_lt hlo hxub
    have := pow2_lt_pow2_iff.mp h
    omega
  have hgapeq : ((5 * u : ℕ) : ℚ) / 2 - x = (u : ℚ) / 26843546 := by
    rw [hxdef]
    push_cast
    field_simp
    ring
  have hgap0 : (0 : ℚ) ≤ (u : ℚ) / 26843546 := by positivity
  apply roundF32_eval x _ e ((5 * u : ℤ) * 2 ^ (22 - e).toNat) hxpos hlo hhi
  · have h22 : (0 : ℤ) ≤ 22 - e := by omega
    have hp : ((2 : ℚ) ^ (22 - e).toNat) = pow2 (22 - e) := by
      rw [pow2_eq_zpow, ← zpow_natCast, Int.toNat_of_nonneg h22]
    push_cast
    rw [mul_assoc, hp, ← pow2_add]
    rw [show 22 - e + (e - 23) = -1 by ring]
    rw [show pow2 (-1) = 1 / 2 by simp [pow2]; try norm_num]
    ring
  · have := pow2_pos (e - 24)
    linarith
  · rw [hgapeq]
    have hx2 : (u : ℚ) = x * (13421773 / 33554432) := by
      rw [hxdef]; field_simp
    have hub : (u : ℚ) < pow2 (e + 1) * (13421773 / 33554432) := by
      rw [hx2]
      have := mul_lt_mul_of_pos_right hhi
        (by norm_num : (0 : ℚ) < 13421773 / 33554432)
      linarith
    rw [div_lt_iff₀ (by norm_num : (0 : ℚ) < 26843546)]
    have hstep : pow2 (e + 1) * (13421773 / 33554432) ≤ pow2 (e - 24) * 26843546 := by
      have hsplit : pow2 (e + 1) = pow2 (e - 24) * 33554432 := by
        rw [show e + 1 = e - 24 + 25 by ring, pow2_add]
        simp [pow2]
      rw [hsplit]
      nlinarith [pow2_pos (e - 24)]
    linarith

theorem roundHalfAway_natCast (n : ℕ) : roundHalfAway (n : ℚ) = (n : ℤ) := by
  unfold roundHalfAway
  rw [if_pos (by positivity)]
  rw [Int.floor_eq_iff]
  constructor
  · push_cast; linarith
  · push_cast; linarith

theorem roundHalfAway_half (n : ℕ) :
    roundHalfAway ((n : ℚ) / 2) = (((n + 1) / 2 : ℕ) : ℤ) := by
  unfold roundHalfAway
  rw [if_pos (by positivity)]
  have harg : (n : ℚ) / 2 + 1 / 2 = ((n + 1 : ℤ) : ℚ) / ((2 : ℕ) : ℚ) := by
    push_cast; ring
  rw [harg, Rat.floor_intCast_div_natCast]
  have : ((n : ℤ) + 1) = ((n + 1 : ℕ) : ℤ) := by push_cast; ring
  rw [this]
  rw [show ((n + 1 : ℕ) : ℤ) / ((2 : ℕ) : ℤ) = (((n + 1) / 2 : ℕ) : ℤ) from
    (Int.ofNat_div (n + 1) 2).symm]

theorem subscriptFallback_eq (u : ℕ) (h1 : 1 ≤ u) (h2 : u ≤ 65535) :
    subscriptFallback u = min (5 * (u : ℤ)) 32767 := by
  unfold subscriptFallback
  rw [f32div_c02_eq u h1 h2, roundHalfAway_natCast]
  unfold i16sat
  push_cast
  omega

theorem superscriptFallback_eq (u : ℕ) (h1 : 1 ≤ u) (h2 : u ≤ 65535) :
    superscriptFallback u = min (((5 * u + 1) / 2 : ℕ) : ℤ) 32767 := by
  unfold superscriptFallback
  rw [f32div_c04_eq u h1 h2, roundHalfAway_half]
  unfold i16sat
  have : 1 ≤ (5 * u + 1) / 2 := by omega
  omega

/-- The concrete `f32` product behind the x-height fallback at
`ascent - descent = 999`: the exact product `999 * 0.45f32` rounds to the
`f32` value `14730854 / 2 ^ 15 ≈ 449.54999`, strictly below `449.55`. -/
theorem f32mul_999_c045 : f32mul 999 c045 = 14730854 / 32768 := by
  unfold f32mul
  rw [c045_eq]
  rw [show (999 : ℚ) * (15099494 / 33554432) = 15084394506 / 33554432 by
    norm_num]
  apply roundF32_eval _ _ 8 14730854 (by norm_num) <;>
    · norm_num [pow2]
      try simp
      try norm_num

/-! ## Inversion principles for `resolveMetrics` -/

theorem resolveMetrics_ok_inv {id : ID} {fv : FaceView} {r : ResolvedFont}
    (h : resolveMetrics id fv = .ok r) :
    fv.units_per_em ≠ 0 ∧ ∃ xh upos uthick,
      resolveXHeight fv = some xh ∧ resolveUnderline fv = .ok (upos, uthick) ∧
      r = mkResolved id fv xh upos uthick := by
  unfold resolveMetrics at h
  by_cases h0 : fv.units_per_em = 0
  · rw [if_pos h0] at h; cases h
  · rw [if_neg h0] at h
    cases hx : resolveXHeight fv with
    | none => rw [hx] at h; cases h
    | some xh =>
      rw [hx] at h
      cases hu : resolveUnderline fv with
      | panic => rw [hu] at h; cases h
      | noResult => rw [hu] at h; cases h
      | ok p =>
        obtain ⟨upos, uthick⟩ := p
        rw [hu] at h
        refine ⟨h0, xh, upos, uthick, rfl, rfl, ?_⟩
        cases h
        rfl

theorem resolveMetrics_noResult_of_xHeight {id : ID} {fv : FaceView}
    (h : resolveXHeight fv = none) : resolveMetrics id fv = .noResult := by
  unfold resolveMetrics
  by_cases h0 : fv.units_per_em = 0
  · rw [if_pos h0]
  · rw [if_neg h0, h]

theorem resolveMetrics_noResult_of_upem {id : ID} {fv : FaceView}
    (h : fv.units_per_em = 0) : resolveMetrics id fv = .noResult := by
  unfold resolveMetrics
  rw [if_pos h]

theorem resolveUnderline_ne_panic {fv : FaceView} (h : 12 ≤ fv.units_per_em) :
    resolveUnderline fv ≠ .panic := by
  have h12 : ¬fv.units_per_em / 12 = 0 := by omega
  cases hund : fv.underline with
  | none => simp [resolveUnderline, nonZeroU16, hund, h12]
  | some m =>
    cases hth : u16NonZeroOfI16 m.thickness with
    | some t => simp [resolveUnderline, hund, hth]
    | none => simp [resolveUnderline, nonZeroU16, hund, hth, h12]

theorem resolveMetrics_ne_panic {id : ID} {fv : FaceView}
    (h : 12 ≤ fv.units_per_em) : resolveMetrics id fv ≠ .panic := by
  unfold resolveMetrics
  rw [if_neg (by omega)]
  cases hx : resolveXHeight fv with
  | none => simp
  | some xh =>
    cases hu : resolveUnderline fv with
    | panic => exact absurd hu (resolveUnderline_ne_panic h)
    | noResult => simp
    | ok p => obtain ⟨upos, uthick⟩ := p; simp

/-! ## Helper facts about the option chains and the underline resolution -/

theorem u16NonZeroOfI16_pos {x : ℤ} {n : ℕ} (h : u16NonZeroOfI16 x = some n) :
    0 < n := by
  unfold u16NonZeroOfI16 at h
  by_cases hx : 0 < x
  · rw [if_pos hx] at h
    cases h
    omega
  · rw [if_neg hx] at h
    cases h

theorem u16NonZeroOfI32_pos {v : ℤ} {n : ℕ} (h : u16NonZeroOfI32 v = some n) :
    0 < n := by
  unfold u16NonZeroOfI32 at h
  by_cases hv : 0 < v ∧ v ≤ 65535
  · rw [if_pos hv] at h
    cases h
    omega
  · rw [if_neg hv] at h
    cases h

theorem resolveXHeight_pos {fv : FaceView} {xh : ℕ}
    (h : resolveXHeight fv = some xh) : 0 < xh := by
  unfold resolveXHeight at h
  cases ht : xHeightFromTable fv with
  | some v =>
    rw [ht] at h
    cases h
    unfold xHeightFromTable at ht
    obtain ⟨w, -, hw⟩ := Option.bind_eq_some.mp ht
    exact u16NonZeroOfI16_pos hw
  | none =>
    rw [ht] at h
    exact u16NonZeroOfI32_pos h

theorem resolveUnderline_ok_pos {fv : FaceView} {upos : ℤ} {uthick : ℕ}
    (h : resolveUnderline fv = .ok (upos, uthick)) : 0 < uthick := by
  unfold resolveUnderline at h
  cases hund : fv.underline with
  | some m =>
    rw [hund] at h
    dsimp only at h
    cases hth : u16NonZeroOfI16 m.thickness with
    | some t =>
      rw [hth] at h
      cases h
      exact u16NonZeroOfI16_pos hth
    | none =>
      rw [hth] at h
      unfold nonZeroU16 at h
      by_cases h12 : fv.units_per_em / 12 = 0
      · rw [if_pos h12] at h; cases h
      · rw [if_neg h12] at h; cases h; omega
  | none =>
    rw [hund] at h
    dsimp only at h
    unfold nonZeroU16 at h
    by_cases h12 : fv.units_per_em / 12 = 0
    · rw [if_pos h12] at h; cases h
    · rw [if_neg h12] at h; cases h; omega

theorem resolveUnderline_ok_some_nonpos {fv : FaceView} {m : LineMetrics}
    {upos : ℤ} {uthick : ℕ} (hund : fv.underline = some m)
    (hth : m.thickness ≤ 0) (h : resolveUnderline fv = .ok (upos, uthick)) :
    upos = m.position ∧ uthick = fv.units_per_em / 12 := by
  unfold resolveUnderline at h
  rw [hund] at h
  dsimp only at h
  have hnone : u16NonZeroOfI16 m.thickness = none := by
    unfold u16NonZeroOfI16
    rw [if_neg (by omega)]
  rw [hnone] at h
  unfold nonZeroU16 at h
  by_cases h12 : fv.units_per_em / 12 = 0
  · rw [if_pos h12] at h; cases h
  · rw [if_neg h12] at h; cases h; exact ⟨rfl, rfl⟩

theorem resolveUnderline_ok_none {fv : FaceView} {upos : ℤ} {uthick : ℕ}
    (hund : fv.underline = none) (h : resolveUnderline fv = .ok (upos, uthick)) :
    upos = rustDiv (i16wrap (-(i16ofU16 fv.units_per_em))) 9 ∧
    uthick = fv.units_per_em / 12 := by
  unfold resolveUnderline at h
  rw [hund] at h
  dsimp only at h
  unfold nonZeroU16 at h
  by_cases h12 : fv.units_per_em / 12 = 0
  · rw [if_pos h12] at h; cases h
  · rw [if_neg h12] at h; cases h; exact ⟨rfl, rfl⟩

/-- Under the parser's units-per-em contract, the no-table underline
position computed through the `u16 as i16` cast, the (wrapping) negation and
the truncating division equals plain `-(units_per_em / 12)`-style integer
arithmetic: `-(units_per_em / 9)`. -/
theorem underlinePos_eq_of_contract {u : ℕ} (h16 : 16 ≤ u) (h163 : u ≤ 16384) :
    rustDiv (i16wrap (-(i16ofU16 u))) 9 = -((u / 9 : ℕ) : ℤ) := by
  unfold i16ofU16
  rw [if_pos (by omega : u < 32768)]
  unfold i16wrap rustDiv
  have hmod : (-(u : ℤ) + 32768) % 65536 = -(u : ℤ) + 32768 := by
    apply Int.emod_eq_of_lt <;> omega
  rw [hmod]
  rw [show -(u : ℤ) + 32768 - 32768 = -(u : ℤ) by ring]
  rw [Int.neg_tdiv]
  rw [show (9 : ℤ) = ((9 : ℕ) : ℤ) by norm_num, ← Int.ofNat_tdiv]

theorem load_font_eq {db : Database} {id : ID} {fv : FaceView}
    (h : db.faceParse id = some (some fv)) :
    load_font db id = resolveMetrics id fv := by
  unfold load_font
  rw [h]

theorem resolveMetrics_eq_ok {id : ID} {fv : FaceView} {xh : ℕ} {upos : ℤ}
    {uthick : ℕ} (h0 : fv.units_per_em ≠ 0)
    (hx : resolveXHeight fv = some xh)
    (hu : resolveUnderline fv = .ok (upos, uthick)) :
    resolveMetrics id fv = .ok (mkResolved id fv xh upos uthick) := by
  unfold resolveMetrics
  rw [if_neg h0, hx, hu]

/-! ## Soundness of the fallback scan -/

theorem fallback_scan_sound (db : Database) (c : Char) (base_font_id : ID)
    (used_fonts : List ID) :
    ∀ faces id, fallback_scan db c base_font_id used_fonts faces = some id →
      used_fonts.contains id = false ∧ has_char db id c = true := by
  intro faces
  induction faces with
  | nil => intro id h; cases h
  | cons face rest ih =>
    intro id h
    rw [fallback_scan] at h
    by_cases hu : used_fonts.contains face.id = true
    · rw [if_pos hu] at h
      exact ih id h
    · rw [if_neg hu] at h
      cases hb : db.face base_font_id with
      | none => rw [hb] at h; cases h
      | some base_face =>
        rw [hb] at h
        dsimp only at h
        by_cases hsm : styleMismatch base_face face = true
        · rw [if_pos hsm] at h
          exact ih id h
        · rw [if_neg hsm] at h
          by_cases hc : has_char db face.id c = true
          · rw [if_pos hc] at h
            cases h
            exact ⟨by simpa using hu, hc⟩
          · rw [if_neg hc] at h
            exact ih id h

theorem fallback_scan_none_of_no_base (db : Database) (c : Char)
    (base_font_id : ID) (used_fonts : List ID)
    (hbase : db.face base_font_id = none) :
    ∀ faces, fallback_scan db c base_font_id used_fonts faces = none := by
  intro faces
  induction faces with
  | nil => rfl
  | cons face rest ih =>
    rw [fallback_scan]
    by_cases hu : used_fonts.contains face.id = true
    · rw [if_pos hu]
      exact ih
    · rw [if_neg hu, hbase]

theorem foldl_push_eq_map {α β : Type} (g : α → β) :
    ∀ (l : List α) (acc : List β),
      l.foldl (fun acc x => acc ++ [g x]) acc = acc ++ l.map g := by
  intro l
  induction l with
  | nil => intro acc; simp
  | cons x xs ih =>
    intro acc
    rw [List.foldl_cons, ih, List.map_cons]
    simp

/-! ## Projections of `mkResolved` and concrete evaluations -/

theorem mkResolved_subscript_some {id : ID} {fv : FaceView} {xh : ℕ}
    {upos : ℤ} {uthick : ℕ} {m : ScriptMetrics} (h : fv.subscript = some m) :
    (mkResolved id fv xh upos uthick).subscript_offset = m.y_offset := by
  simp only [mkResolved]
  rw [h]

theorem mkResolved_subscript_none {id : ID} {fv : FaceView} {xh : ℕ}
    {upos : ℤ} {uthick : ℕ} (h : fv.subscript = none) :
    (mkResolved id fv xh upos uthick).subscript_offset =
      subscriptFallback fv.units_per_em := by
  simp only [mkResolved]
  rw [h]

theorem mkResolved_superscript_some {id : ID} {fv : FaceView} {xh : ℕ}
    {upos : ℤ} {uthick : ℕ} {m : ScriptMetrics} (h : fv.superscript = some m) :
    (mkResolved id fv xh upos uthick).superscript_offset = m.y_offset := by
  simp only [mkResolved]
  rw [h]

theorem mkResolved_superscript_none {id : ID} {fv : FaceView} {xh : ℕ}
    {upos : ℤ} {uthick : ℕ} (h : fv.superscript = none) :
    (mkResolved id fv xh upos uthick).superscript_offset =
      superscriptFallback fv.units_per_em := by
  simp only [mkResolved]
  rw [h]

theorem xHeightFallback_fvC4 : xHeightFallback fvC4 = some 449 := by
  unfold xHeightFallback xHeightFallbackVal
  rw [show i16wrap (fvC4.ascender - fvC4.descender) = 999 from by decide]
  rw [show ((999 : ℤ) : ℚ) = (999 : ℚ) by norm_num]
  rw [f32mul_999_c045]
  rw [show truncQ (14730854 / 32768) = 449 from by
    unfold truncQ
    rw [if_pos (by norm_num)]
    norm_num]
  decide

theorem resolveXHeight_fvC4 : resolveXHeight fvC4 = some 449 := by
  unfold resolveXHeight
  rw [show xHeightFromTable fvC4 = none from by decide]
  exact xHeightFallback_fvC4

theorem resolveMetrics_fvC4 :
    resolveMetrics 0 fvC4 = .ok (mkResolved 0 fvC4 449 (-100) 50) :=
  resolveMetrics_eq_ok (by decide) resolveXHeight_fvC4 (by decide)

/-! ## The claims -/

/-- C1: in `find_fallback_font`, a candidate that passes the used-set check
is rejected by the style-compatibility test iff its style, weight, and
stretch all three differ from the base face's fields; in particular, in the
scenario where face A (identifier 0) is already used and face B
(identifier 1) matches the base face on weight only while both cover `'é'`,
the fallback search returns face B. -/
theorem claim_C1 :
    (∀ base_face face : FaceInfo,
      styleMismatch base_face face = true ↔
        base_face.style ≠ face.style ∧ base_face.weight ≠ face.weight ∧
          base_face.stretch ≠ face.stretch) ∧
    find_fallback_font dbScen 'é' 0 [0] = some 1 := by
  constructor
  · intro base_face face
    simp [styleMismatch]
  · decide

/-- C2: whenever `load_font` returns a `ResolvedFont`, its units-per-em,
x-height and underline-thickness are strictly positive; a parsed face whose
units-per-em is zero, or whose x-height cannot be resolved to a strictly
positive value, yields no result instead. -/
theorem claim_C2 (db : Database) (id : ID) (fv : FaceView) (r : ResolvedFont)
    (hparse : db.faceParse id = some (some fv)) :
    (load_font db id = .ok r →
      0 < r.units_per_em ∧ 0 < r.x_height ∧ 0 < r.underline_thickness) ∧
    (fv.units_per_em = 0 → load_font db id = .noResult) ∧
    (resolveXHeight fv = none → load_font db id = .noResult) := by
  rw [load_font_eq hparse]
  refine ⟨?_, ?_, ?_⟩
  · intro hok
    obtain ⟨h0, xh, upos, uthick, hxh, hund, hr⟩ := resolveMetrics_ok_inv hok
    subst hr
    exact ⟨Nat.pos_of_ne_zero h0, resolveXHeight_pos hxh,
      resolveUnderline_ok_pos hund⟩
  · exact resolveMetrics_noResult_of_upem
  · exact resolveMetrics_noResult_of_xHeight

/-- C2 witness: at the concrete catalog `dbAll`, `load_font` succeeds and
the three resolved fields are strictly positive. -/
theorem claim_C2_witness :
    0 < (mkResolved 0 fvAll 450 (-100) 50).units_per_em ∧
    0 < (mkResolved 0 fvAll 450 (-100) 50).x_height ∧
    0 < (mkResolved 0 fvAll 450 (-100) 50).underline_thickness :=
  (claim_C2 dbAll 0 fvAll (mkResolved 0 fvAll 450 (-100) 50)
    (by decide)).1 (by decide)

/-- C3: for a successfully resolved face satisfying the parser's
units-per-em contract, a present underline table with non-positive thickness
resolves to thickness `units_per_em / 12` with the table's position kept,
and an absent underline table resolves to position `-(units_per_em / 9)`
and thickness `units_per_em / 12`. -/
theorem claim_C3 (id : ID) (fv : FaceView) (r : ResolvedFont)
    (hcontract : unitsPerEmContract fv)
    (hok : resolveMetrics id fv = .ok r) :
    (∀ m, fv.underline = some m → m.thickness ≤ 0 →
      r.underline_thickness = fv.units_per_em / 12 ∧
      r.underline_position = m.position) ∧
    (fv.underline = none →
      r.underline_position = -((fv.units_per_em / 9 : ℕ) : ℤ) ∧
      r.underline_thickness = fv.units_per_em / 12) := by
  obtain ⟨h0, xh, upos, uthick, hxh, hund, hr⟩ := resolveMetrics_ok_inv hok
  subst hr
  constructor
  · intro m hm hth
    obtain ⟨hpos, hthick⟩ := resolveUnderline_ok_some_nonpos hm hth hund
    exact ⟨hthick, hpos⟩
  · intro hnone
    obtain ⟨hpos, hthick⟩ := resolveUnderline_ok_none hnone hund
    constructor
    · show upos = _
      rw [hpos, underlinePos_eq_of_contract hcontract.1 hcontract.2]
    · exact hthick

/-- C3 witness: a face with units-per-em 1000 and no underline table
resolves to underline position `-111 = -(1000 / 9)` and thickness
`83 = 1000 / 12`. -/
theorem claim_C3_witness :
    (mkResolved 0 fvC3w 450 (-111) 83).underline_position =
      -((1000 / 9 : ℕ) : ℤ) ∧
    (mkResolved 0 fvC3w 450 (-111) 83).underline_thickness = 1000 / 12 :=
  (claim_C3 0 fvC3w (mkResolved 0 fvC3w 450 (-111) 83)
    ⟨by decide, by decide⟩ (by decide)).2 rfl

/-- C4 counterexample: for the face with no x-height table and
`ascent - descent = 999`, the code resolves x-height 449 (the `as i32`
cast truncates the `f32` product `999 * 0.45f32 ≈ 449.54999`), while the
claim's formula `round((ascent - descent) * 0.45) = round(449.55)`
gives 450. -/
theorem claim_C4_cex :
    resolveMetrics 0 fvC4 = .ok (mkResolved 0 fvC4 449 (-100) 50) ∧
    (mkResolved 0 fvC4 449 (-100) 50).x_height = 449 ∧
    roundHalfAway (((fvC4.ascender - fvC4.descender : ℤ) : ℚ) * (45 / 100)) =
      450 ∧
    (449 : ℕ) ≠ 450 := by
  refine ⟨resolveMetrics_fvC4, rfl, ?_, by decide⟩
  rw [show ((fvC4.ascender - fvC4.descender : ℤ) : ℚ) = 999 from by
    norm_num [fvC4]]
  unfold roundHalfAway
  rw [if_pos (by norm_num)]
  norm_num

/-- C4 (amended): when the x-height table is absent or unusable, the
resolved x-height equals the fallback value — `(ascent - descent)` in
wrapping 16-bit arithmetic, multiplied by `0.45` in `f32`, truncated toward
zero by the `as i32` cast — and resolution yields no result when that value
is not a strictly positive `u16`. -/
theorem claim_C4 (id : ID) (fv : FaceView) :
    (∀ r, resolveMetrics id fv = .ok r → xHeightFromTable fv = none →
      xHeightFallback fv = some r.x_height) ∧
    (xHeightFromTable fv = none → xHeightFallback fv = none →
      resolveMetrics id fv = .noResult) := by
  constructor
  · intro r hok htab
    obtain ⟨h0, xh, upos, uthick, hxh, hund, hr⟩ := resolveMetrics_ok_inv hok
    subst hr
    show xHeightFallback fv = some xh
    unfold resolveXHeight at hxh
    rw [htab] at hxh
    exact hxh
  · intro htab hfall
    apply resolveMetrics_noResult_of_xHeight
    unfold resolveXHeight
    rw [htab]
    exact hfall

/-- C4 witness: at the concrete face `fvC4` the amended fallback equation
is realized with resolved x-height 449. -/
theorem claim_C4_witness : xHeightFallback fvC4 = some 449 :=
  (claim_C4 0 fvC4).1 (mkResolved 0 fvC4 449 (-100) 50) resolveMetrics_fvC4
    (by decide)

/-- C5 (code bug): when the accepted candidate has no U.S.-English family
name, the log line's fallback reads `base_face.families[0]` instead of
`face.families[0]`, so the note names the base face's first family
("Alpha") as the new face, not the candidate's own first family ("Beta"). -/
theorem claim_C5 :
    fallback_note baseC5 candC5 = some ("Alpha", "Alpha") ∧
    specDisplayName candC5 = some "Beta" ∧ ("Alpha" : String) ≠ "Beta" := by
  refine ⟨by decide, by decide, by decide⟩

/-- C6: any identifier returned by `find_fallback_font` is not in the
caller-supplied used-set, and names a face whose raw data exists, parses,
and maps the requested character to a glyph. -/
theorem claim_C6 (db : Database) (c : Char) (base_font_id : ID)
    (used_fonts : List ID) (id : ID)
    (h : find_fallback_font db c base_font_id used_fonts = some id) :
    id ∉ used_fonts ∧
    ∃ fv, db.faceParse id = some (some fv) ∧ fv.glyphs.contains c = true := by
  obtain ⟨hused, hchar⟩ :=
    fallback_scan_sound db c base_font_id used_fonts db.faces id h
  refine ⟨by simpa using hused, ?_⟩
  unfold has_char at hchar
  cases hp : db.faceParse id with
  | none => rw [hp] at hchar; cases hchar
  | some o =>
    cases o with
    | none => rw [hp] at hchar; dsimp only at hchar; cases hchar
    | some fv =>
      rw [hp] at hchar
      dsimp only at hchar
      exact ⟨fv, rfl, hchar⟩

/-- C6 witness: in the two-face scenario the returned identifier 1 is
outside the used-set `[0]` and its parsed face covers `'é'`. -/
theorem claim_C6_witness :
    (1 : ID) ∉ [(0 : ID)] ∧
    ∃ fv, dbScen.faceParse 1 = some (some fv) ∧
      fv.glyphs.contains 'é' = true :=
  claim_C6 dbScen 'é' 0 [0] 1 (by decide)

/-- C7 counterexample: for the face with units-per-em 16384 (valid per the
parser) and no subscript table, the code's subscript offset is 32767 (the
`as i16` cast saturates), while the claim's literal formula
`round(units_per_em / 0.2)` gives 81920. -/
theorem claim_C7_cex :
    resolveMetrics 0 fvC7 = .ok (mkResolved 0 fvC7 800 (-100) 50) ∧
    fvC7.subscript = none ∧
    (mkResolved 0 fvC7 800 (-100) 50).subscript_offset = 32767 ∧
    roundHalfAway ((fvC7.units_per_em : ℚ) / (2 / 10)) = 81920 ∧
    (32767 : ℤ) ≠ 81920 := by
  refine ⟨resolveMetrics_eq_ok (by decide) (by decide) (by decide), rfl, ?_,
    ?_, by decide⟩
  · rw [mkResolved_subscript_none rfl]
    rw [show fvC7.units_per_em = 16384 from rfl]
    rw [subscriptFallback_eq 16384 (by norm_num) (by norm_num)]
    omega
  · rw [show (fvC7.units_per_em : ℚ) = 16384 from by norm_num [fvC7]]
    rw [show (16384 : ℚ) / (2 / 10) = 81920 by norm_num]
    unfold roundHalfAway
    rw [if_pos (by norm_num)]
    norm_num

/-- C7 (amended): for every successfully resolved `u16`-representable face,
subscript and superscript offsets equal the table y-offsets when present;
when a table is absent the offset is the division-based fallback
`round(units_per_em / 0.2)` resp. `round(units_per_em / 0.4)` — equal to
`5 * units_per_em` resp. `round(2.5 * units_per_em)` — saturated to at most
32767 by the `as i16` cast. -/
theorem claim_C7 (id : ID) (fv : FaceView) (r : ResolvedFont)
    (hWF : fv.units_per_em ≤ 65535)
    (hok : resolveMetrics id fv = .ok r) :
    (∀ m, fv.subscript = some m → r.subscript_offset = m.y_offset) ∧
    (∀ m, fv.superscript = some m → r.superscript_offset = m.y_offset) ∧
    (fv.subscript = none →
      r.subscript_offset = min (5 * (fv.units_per_em : ℤ)) 32767) ∧
    (fv.superscript = none →
      r.superscript_offset =
        min (((5 * fv.units_per_em + 1) / 2 : ℕ) : ℤ) 32767) := by
  obtain ⟨h0, xh, upos, uthick, hxh, hund, hr⟩ := resolveMetrics_ok_inv hok
  subst hr
  have h1 : 1 ≤ fv.units_per_em := Nat.pos_of_ne_zero h0
  refine ⟨?_, ?_, ?_, ?_⟩
  · intro m hm
    exact mkResolved_subscript_some hm
  · intro m hm
    exact mkResolved_superscript_some hm
  · intro hnone
    rw [mkResolved_subscript_none hnone,
      subscriptFallback_eq fv.units_per_em h1 hWF]
  · intro hnone
    rw [mkResolved_superscript_none hnone,
      superscriptFallback_eq fv.units_per_em h1 hWF]

/-- C7 witness: a face with units-per-em 1000 and neither table resolves
subscript offset `min 5000 32767 = 5000` and superscript offset
`min 2500 32767 = 2500`. -/
theorem claim_C7_witness :
    (mkResolved 0 fvC7w 450 (-100) 50).subscript_offset =
      min (5 * ((1000 : ℕ) : ℤ)) 32767 ∧
    (mkResolved 0 fvC7w 450 (-100) 50).superscript_offset =
      min (((5 * 1000 + 1) / 2 : ℕ) : ℤ) 32767 := by
  have h := claim_C7 0 fvC7w (mkResolved 0 fvC7w 450 (-100) 50)
    (by decide) (resolveMetrics_eq_ok (by decide) (by decide) (by decide))
  exact ⟨h.2.2.1 rfl, h.2.2.2 rfl⟩

/-- C8: the candidate family list assembled by `find_font` is the caller's
families translated in request order (generics 1:1, named families passed
through unchanged) with the generic serif token appended unconditionally at
the end. -/
theorem claim_C8 (font : Font) :
    name_list font = font.families.map familyToken ++ [Family.serif] ∧
    (name_list font).getLast? = some Family.serif ∧
    ∀ s, familyToken (FontFamily.named s) = Family.name s := by
  have hmap : name_list font =
      font.families.map familyToken ++ [Family.serif] := by
    unfold name_list
    rw [foldl_push_eq_map familyToken font.families []]
    simp
  refine ⟨hmap, ?_, fun s => rfl⟩
  rw [hmap, List.getLast?_concat]

/-- C9: if every face that parses under the given identifier reports
`units_per_em ≥ 12`, `load_font` never panics (the `unwrap`s on
`NonZeroU16::new(units_per_em / 12)` are unreachable); without that
precondition the unwrap panics, as the concrete face with units-per-em 11
shows. -/
theorem claim_C9 (db : Database) (id : ID)
    (hsafe : ∀ fv, db.faceParse id = some (some fv) → 12 ≤ fv.units_per_em) :
    load_font db id ≠ .panic ∧ resolveMetrics 0 fvC9 = .panic := by
  constructor
  · unfold load_font
    cases hp : db.faceParse id with
    | none => simp
    | some o =>
      cases o with
      | none => simp
      | some fv => exact resolveMetrics_ne_panic (hsafe fv hp)
  · decide

/-- C9 witness: the concrete catalog `dbAll` (single face with units-per-em
1000) satisfies the precondition, so `load_font` does not panic there. -/
theorem claim_C9_witness :
    load_font dbAll 0 ≠ .panic ∧ resolveMetrics 0 fvC9 = .panic :=
  claim_C9 dbAll 0 (by
    intro fv h
    simp only [dbAll, if_pos] at h
    rw [← Option.some_inj.mp (Option.some_inj.mp h)]
    decide)

/-- C10: when the catalog has no descriptor for the base face and at least
one enumerated face survives the used-set check, `find_fallback_font`
returns no match for the entire call: the in-loop `?` on the base
descriptor fetch aborts the scan at the first surviving candidate, even
when later candidates cover the character. -/
theorem claim_C10 (db : Database) (c : Char) (base_font_id : ID)
    (used_fonts : List ID) (hbase : db.face base_font_id = none)
    (_hsurvivor : ∃ face, face ∈ db.faces ∧
      used_fonts.contains face.id = false) :
    find_fallback_font db c base_font_id used_fonts = none := by
  unfold find_fallback_font
  exact fallback_scan_none_of_no_base db c base_font_id used_fonts hbase
    db.faces

/-- C10 witness: in `dbC10` the base identifier 99 has no descriptor, the
first candidate survives the empty used-set, a later candidate covers
`'x'`, and the call still returns no match. -/
theorem claim_C10_witness : find_fallback_font dbC10 'x' 99 [] = none :=
  claim_C10 dbC10 'x' 99 [] (by decide) ⟨faceC10a, by decide, by decide⟩

end Resvg
